import Mathlib

/-!
Shallow embedding of the math3d library's numeric core (Vector, MathUtil,
Quaternion, Matrix, CoordinateSys) over exact arithmetic (ℚ, and ℝ where the
source computes square roots), together with theorems settling the claims
about its specification.

Python exceptions are modelled with `Except MathError`; in-place mutation is
modelled by returning the updated value.
-/

set_option autoImplicit false

/-- Error kinds raised by the library (ValueError, IndexError, TypeError,
KeyError and ZeroDivisionError in the Python source, grouped by the
spec's taxonomy). -/
inductive MathError where
  | invalidArgument   -- ValueError for a domain-restricted parameter
  | singular          -- ValueError('Singular matrix error')
  | divByZero         -- ZeroDivisionError
  | indexError        -- IndexError
  | sizeMismatch      -- IndexError / TypeError for mismatched operand sizes
  | keyError          -- KeyError for an unsupported keyword
  deriving DecidableEq, Repr

namespace Vec

/-- Vector.dot : `sum([x[0]*x[1] for x in zip(self, v)])` after the length
check; raises IndexError on a length mismatch. -/
def dotE (a b : List ℚ) : Except MathError ℚ :=
  if a.length ≠ b.length then .error .sizeMismatch
  else .ok ((a.zip b).foldl (fun acc p => acc + p.1 * p.2) 0)

/-- Vector.__add__ : element-wise sum after the length check. -/
def addE (a b : List ℚ) : Except MathError (List ℚ) :=
  if a.length ≠ b.length then .error .sizeMismatch
  else .ok ((a.zip b).map (fun p => p.1 + p.2))

/-- Vector.mults : scaled copy, `prod.scale(s)` multiplies each element by s. -/
def multsU (a : List ℚ) (s : ℚ) : List ℚ :=
  a.map (fun x => x * s)

/-- Vector.cross : the 3-D cross product; raises IndexError unless both
operands have exactly 3 elements. -/
def crossE (a b : List ℚ) : Except MathError (List ℚ) :=
  if a.length ≠ 3 ∨ b.length ≠ 3 then .error .indexError
  else
    let x1 := a.getD 0 0; let y1 := a.getD 1 0; let z1 := a.getD 2 0
    let x2 := b.getD 0 0; let y2 := b.getD 1 0; let z2 := b.getD 2 0
    .ok [y1 * z2 - y2 * z1, z1 * x2 - z2 * x1, x1 * y2 - x2 * y1]

end Vec

namespace MathUtil

/-- Python 2's round(): half-away-from-zero rounding to an integer value. -/
def pyRound (q : ℚ) : ℚ :=
  if q ≥ 0 then (⌊q + 1/2⌋ : ℤ) else (-⌊-q + 1/2⌋ : ℤ)

/-- MathUtil.roundsd : round to a number of significant digits.  The zero
check precedes the digit-count check; `math.floor(math.log10(f))` is the
exact base-10 logarithm floor `Int.log 10` over exact arithmetic. -/
def roundsd (f : ℚ) (sigDigits : ℤ) : Except MathError ℚ :=
  if f = 0 then .ok f
  else
    let neg : Bool := f < 0
    let fa := |f|
    if sigDigits ≤ 0 ∨ sigDigits > 10 then .error .invalidArgument
    else
      let power : ℤ := Int.log 10 fa
      let factor : ℚ := (10 : ℚ) ^ (power - sigDigits + 1)
      let retval := pyRound (fa / factor) * factor
      .ok (if neg then retval * (-1) else retval)

end MathUtil

/-- Quaternion : a scalar `_s` and a stored vector `_v` (built as
`Vector(a, b, c)` by the constructor). -/
structure Quat where
  s : ℚ
  v : List ℚ
  deriving DecidableEq, Repr

namespace Quat

/-- Quaternion.__init__(s, a, b, c). -/
def mk4 (s a b c : ℚ) : Quat := ⟨s, [a, b, c]⟩

/-- Quaternion.fromScalarVector : `Quaternion(scalar, v[0], v[1], v[2])`. -/
def fromScalarVector (s : ℚ) (v : List ℚ) : Quat :=
  mk4 s (v.getD 0 0) (v.getD 1 0) (v.getD 2 0)

/-- Quaternion.mults : scaled copy (scale multiplies `_s` and each element
of `_v` by the scalar). -/
def mults (q : Quat) (k : ℚ) : Quat :=
  ⟨q.s * k, Vec.multsU q.v k⟩

/-- Quaternion.mul1, the geometric form:
`s = s₁s₂ − v₁·v₂`, `v = v₂·s₁ + v₁·s₂ + v₁×v₂`, assembled through the
Vector operations exactly as the source composes them. -/
def mul1 (p q : Quat) : Except MathError Quat := do
  let d ← Vec.dotE p.v q.v
  let s := p.s * q.s - d
  let t ← Vec.addE (Vec.multsU q.v p.s) (Vec.multsU p.v q.s)
  let cr ← Vec.crossE p.v q.v
  let v ← Vec.addE t cr
  pure (fromScalarVector s v)

/-- Quaternion.mul2, the expanded component form of Hamilton's product. -/
def mul2 (p q : Quat) : Quat :=
  let s1 := p.s
  let a1 := p.v.getD 0 0; let b1 := p.v.getD 1 0; let c1 := p.v.getD 2 0
  let s2 := q.s
  let a2 := q.v.getD 0 0; let b2 := q.v.getD 1 0; let c2 := q.v.getD 2 0
  ⟨s1 * s2 - a1 * a2 - b1 * b2 - c1 * c2,
   [s1 * a2 + a1 * s2 + b1 * c2 - c1 * b2,
    s1 * b2 - a1 * c2 + b1 * s2 + c1 * a2,
    s1 * c2 + a1 * b2 - b1 * a2 + c1 * s2]⟩

end Quat

/-- Matrix : row-major grid `mV` with tracked dimensions `mNRows`/`mNCols`. -/
structure MatrixQ where
  nrows : ℕ
  ncols : ℕ
  mV : List (List ℚ)
  deriving DecidableEq, Repr

namespace MatrixQ

/-- Read element (i, j) of the row data (all source accesses are in range;
out-of-range reads default to 0 in the embedding). -/
def getE (mv : List (List ℚ)) (i j : ℕ) : ℚ :=
  (mv.getD i []).getD j 0

/-- Write element (i, j) of the row data. -/
def setE (mv : List (List ℚ)) (i j : ℕ) (x : ℚ) : List (List ℚ) :=
  mv.set i ((mv.getD i []).set j x)

/-- The shape invariant of the spec: the stored row count matches `nrows`
and every stored row has exactly `ncols` elements. -/
def WF (m : MatrixQ) : Prop :=
  m.mV.length = m.nrows ∧ ∀ r ∈ m.mV, r.length = m.ncols

instance (m : MatrixQ) : Decidable (WF m) :=
  inferInstanceAs (Decidable (_ ∧ _))

/-- Shape of a raw grid: `nr` rows, each of length `nc`. -/
def Dims (nr nc : ℕ) (mv : List (List ℚ)) : Prop :=
  mv.length = nr ∧ ∀ r ∈ mv, r.length = nc

/-- Longest row length among the constructor arguments
(`max([len(row) for row in args])`). -/
def maxLen (args : List (List ℚ)) : ℕ :=
  args.foldr (fun r acc => max r.length acc) 0

/-- Matrix.__init__ : positional rows are right-padded with zeros to the
longest row; `rows=`/`cols=` keywords may only grow the matrix, raising
IndexError otherwise; a lone keyword defaults the other dimension to at
least 1; row padding (with `[0.0]*mNCols`) happens before column padding. -/
def matrixInit (args : List (List ℚ)) (kwrows kwcols : Option ℕ) :
    Except MathError MatrixQ :=
  let nr0 := args.length
  let nc0 := if args.isEmpty then 0 else maxLen args
  let mv0 := args.map (fun r => r ++ List.replicate (nc0 - r.length) 0)
  if ∃ r, kwrows = some r ∧ r < nr0 then .error .indexError
  else if ∃ c, kwcols = some c ∧ c < nc0 then .error .indexError
  else
    let kwrows1 := match kwrows, kwcols with
      | none, some _ => some (max nr0 1)
      | _, _ => kwrows
    let kwcols1 := match kwrows1, kwcols with
      | some _, none => some (max nc0 1)
      | _, _ => kwcols
    let step1 : List (List ℚ) × ℕ := match kwrows1 with
      | some r => (mv0 ++ List.replicate (r - nr0) (List.replicate nc0 0), r)
      | none => (mv0, nr0)
    let step2 : List (List ℚ) × ℕ := match kwcols1 with
      | some c => ((step1.1.map (fun row => row ++ List.replicate (c - nc0) 0)), c)
      | none => (step1.1, nc0)
    .ok ⟨step1.2, step2.2, step2.1⟩

/-- Matrix(rows=r, cols=c) : the all-zero r-by-c matrix this call builds. -/
def matrixKW (r c : ℕ) : MatrixQ :=
  ⟨r, c, List.replicate r (List.replicate c 0)⟩

/-- Element assignment `m[i][j] = x`. -/
def setElem (m : MatrixQ) (i j : ℕ) (x : ℚ) : MatrixQ :=
  ⟨m.nrows, m.ncols, setE m.mV i j x⟩

/-- Row assignment `m[i] = value` (Matrix.__setitem__ stores the given
list unchecked). -/
def setRow (m : MatrixQ) (i : ℕ) (r : List ℚ) : MatrixQ :=
  ⟨m.nrows, m.ncols, m.mV.set i r⟩

/-- Matrix.scale : in-place multiplication of every element. -/
def scale (m : MatrixQ) (s : ℚ) : MatrixQ :=
  ⟨m.nrows, m.ncols, m.mV.map (fun row => row.map (fun e => e * s))⟩

/-- One decimal-place rounding step of Matrix.round:
`row[i] = round(row[i], places)`. -/
def roundPlaces (x : ℚ) (places : ℕ) : ℚ :=
  MathUtil.pyRound (x * 10 ^ places) / 10 ^ places

/-- Matrix.round : rounds `row[i]` for `i in range(mNCols)` in every row. -/
def roundM (m : MatrixQ) (places : ℕ) : MatrixQ :=
  ⟨m.nrows, m.ncols,
   m.mV.map (fun row =>
     (List.range m.ncols).foldl
       (fun r i => r.set i (roundPlaces (r.getD i 0) places)) row)⟩

/-- Matrix.__add__ : size check, then a freshly built grid of sums. -/
def addM (m1 m2 : MatrixQ) : Except MathError MatrixQ :=
  if (m1.nrows, m1.ncols) ≠ (m2.nrows, m2.ncols) then .error .sizeMismatch
  else
    .ok ⟨m1.nrows, m1.ncols,
      (List.range m1.nrows).map (fun i =>
        (List.range m1.ncols).map (fun j => getE m1.mV i j + getE m2.mV i j))⟩

/-- Matrix.multv : matrix-vector product with a column-count check. -/
def multv (m : MatrixQ) (v : List ℚ) : Except MathError (List ℚ) :=
  if m.ncols ≠ v.length then .error .sizeMismatch
  else
    .ok ((List.range m.nrows).map (fun i =>
      (List.range m.ncols).foldl (fun acc j => acc + getE m.mV i j * v.getD j 0) 0))

/-- Matrix.multm : matrix-matrix product; builds `Matrix(rows=, cols=)`
and fills each entry with the accumulated dot product. -/
def multm (m1 m2 : MatrixQ) : Except MathError MatrixQ :=
  if m1.ncols ≠ m2.nrows then .error .sizeMismatch
  else
    .ok ((List.range m1.nrows).foldl (fun M i =>
      (List.range m2.ncols).foldl (fun M j =>
        setElem M i j ((List.range m1.ncols).foldl
          (fun d k => d + getE m1.mV i k * getE m2.mV k j) 0)) M)
      (matrixKW m1.nrows m2.ncols))

/-- Matrix.transpose : fills `Matrix(rows=ncols, cols=nrows)` with
`r[j][i] = m[i][j]`. -/
def transpose (m : MatrixQ) : MatrixQ :=
  (List.range m.nrows).foldl (fun M i =>
    (List.range m.ncols).foldl (fun M j =>
      setElem M j i (getE m.mV i j)) M)
    (matrixKW m.ncols m.nrows)

end MatrixQ

namespace MatrixQ

/-- The scan loop of ludecomp over one row: `big` is the maximum of
`abs(self.mV[i][j])` for `j in range(n)` accumulated with a strict
comparison. -/
def rowMaxAbs (row : List ℚ) (n : ℕ) : ℚ :=
  (List.range n).foldl (fun big j => let temp := |row.getD j 0|
                                     if temp > big then temp else big) 0

/-- The recursion behind the implicit-scaling scan of ludecomp: visit the
row indices in order, stopping with the Singular-matrix error at the first
row whose maximum absolute value is exactly zero. -/
def vvLoop (mv : List (List ℚ)) (n : ℕ) : List ℕ → Except MathError (List ℚ)
  | [] => .ok []
  | i :: rest =>
    let big := rowMaxAbs (mv.getD i []) n
    if big = 0 then .error .singular
    else
      match vvLoop mv n rest with
      | .error e => .error e
      | .ok vv => .ok (big :: vv)

/-- The implicit-scaling scan of ludecomp: `vv[i]` is row i's maximum
absolute value; the Singular-matrix error is raised at the first row whose
maximum is exactly zero, before any element of the matrix is written. -/
def computeVV (mv : List (List ℚ)) (n : ℕ) : Except MathError (List ℚ) :=
  vvLoop mv n (List.range n)

/-- The epsilon substituted for an exactly-zero pivot (`TINY = 1e-20`). -/
def TINY : ℚ := 1 / 10 ^ 20

/-- Loop state of ludecomp's elimination phase: the row data, the scaling
vector `vv`, the permutation `index`, the parity `d` and the persistent
pivot-row register `imax` (initialized to -1 in the source). -/
structure LUState where
  mv : List (List ℚ)
  vv : List ℚ
  index : List ℤ
  d : ℚ
  imax : ℤ
  deriving Repr

/-- The `for i in range(j)` phase of ludecomp's column loop: reduce the
elements above the diagonal of column j. -/
def luReduceAbove (j : ℕ) (mv : List (List ℚ)) : List (List ℚ) :=
  (List.range j).foldl (fun mv i =>
    let csum := (List.range i).foldl
      (fun c k => c - getE mv i k * getE mv k j) (getE mv i j)
    setE mv i j csum) mv

/-- The `for i in range(j, n)` phase of ludecomp's column loop: reduce the
remaining elements of column j while tracking the largest scaled pivot
candidate (`big` starts at 0.0, the comparison is `>=`, and `imax`
persists from the surrounding state). -/
def luReduceBelow (n j : ℕ) (vv : List ℚ) (mv : List (List ℚ)) (imax0 : ℤ) :
    List (List ℚ) × ℚ × ℤ :=
  (List.range' j (n - j)).foldl (fun t i =>
    let csum := (List.range j).foldl
      (fun c k => c - getE t.1 i k * getE t.1 k j) (getE t.1 i j)
    let mv' := setE t.1 i j csum
    let dum := vv.getD i 0 * |csum|
    if dum ≥ t.2.1 then (mv', dum, (i : ℤ)) else (mv', t.2.1, t.2.2))
    (mv, 0, imax0)

/-- The row-interchange loop of ludecomp: for `k in range(n)`, swap
elements (r1, k) and (r2, k). -/
def luSwap (n r1 r2 : ℕ) (mv : List (List ℚ)) : List (List ℚ) :=
  (List.range n).foldl (fun mv k =>
    let dum := getE mv r1 k
    let mv' := setE mv r1 k (getE mv r2 k)
    setE mv' r2 k dum) mv

/-- The subdiagonal division of ludecomp: multiply elements (i, j) for
`i in range(j+1, n)` by the reciprocal of the pivot. -/
def luDivide (n j : ℕ) (mv : List (List ℚ)) : List (List ℚ) :=
  let dum := 1 / getE mv j j
  (List.range' (j + 1) (n - (j + 1))).foldl
    (fun mv i => setE mv i j (getE mv i j * dum)) mv

/-- The body of ludecomp's outer loop over column `j` (Crout elimination
with partial pivoting as transcribed from the source). -/
def luStep (n : ℕ) (s : LUState) (j : ℕ) : LUState :=
  let mv1 := luReduceAbove j s.mv
  let t := luReduceBelow n j s.vv mv1 s.imax
  let imax := t.2.2
  -- if j != imax: interchange rows elementwise, flip parity, fix vv
  let mv4 := if (j : ℤ) ≠ imax then luSwap n imax.toNat j t.1 else t.1
  let d4 := if (j : ℤ) ≠ imax then -s.d else s.d
  let vv4 := if (j : ℤ) ≠ imax then s.vv.set imax.toNat (s.vv.getD j 0) else s.vv
  let index4 := s.index.set j imax
  -- TINY substitution for an exactly-zero pivot
  let mv5 := if getE mv4 j j = 0 then setE mv4 j j TINY else mv4
  -- if j != n (always true here): divide the subdiagonal of column j
  let mv6 := if j ≠ n then luDivide n j mv5 else mv5
  ⟨mv6, vv4, index4, d4, imax⟩

/-- Matrix.ludecomp : returns the `(index, d)` result (or the
Singular-matrix error) together with the matrix contents as left by
the call (unchanged on the error path, which precedes all writes). -/
def ludecomp (m : MatrixQ) :
    Except MathError (List ℤ × ℚ) × MatrixQ :=
  let n := m.nrows
  match computeVV m.mV n with
  | .error e => (.error e, m)
  | .ok vv =>
      let s0 : LUState := ⟨m.mV, vv, List.replicate n 0, 1, -1⟩
      let s := (List.range n).foldl (luStep n) s0
      (.ok (s.index, s.d), ⟨m.nrows, m.ncols, s.mv⟩)

/-- Matrix.lubacksub : forward substitution with the permuted right-hand
side (including the source's `ii` first-nonzero bookkeeping), then back
substitution; `self` holds the LU factors. -/
def lubacksub (lu : MatrixQ) (index : List ℤ) (b : List ℚ) : List ℚ :=
  let n := lu.nrows
  let fwd := (List.range n).foldl (fun (t : List ℚ × ℕ) i =>
    let (b, ii) := t
    let ip := (index.getD i 0).toNat
    let s0 := b.getD ip 0
    let b1 := b.set ip (b.getD i 0)
    if ii ≠ 0 then
      let s1 := (List.range' ii (i - ii)).foldl
        (fun s j => s - getE lu.mV i j * b1.getD j 0) s0
      (b1.set i s1, ii)
    else if s0 ≠ 0 then (b1.set i s0, i)
    else (b1.set i s0, ii)) (b, 0)
  (List.range n).foldl (fun b k =>
    let i := n - 1 - k
    let s1 := (List.range' (i + 1) (n - (i + 1))).foldl
      (fun s j => s - getE lu.mV i j * b.getD j 0) (b.getD i 0)
    b.set i (s1 / getE lu.mV i i)) fwd.1

/-- One row of Matrix.__eq__ against a plain list `l`: walk the stored
row, indexing `l[i][j]` per element; IndexError surfaces at the first
out-of-range access, a mismatch returns False. -/
def eqRow (l : List (List ℚ)) (i : ℕ) : List ℚ → ℕ → Except MathError Bool
  | [], _ => .ok true
  | x :: rest, j =>
    match l.get? i with
    | none => .error .indexError
    | some lr =>
      match lr.get? j with
      | none => .error .indexError
      | some y => if x ≠ y then .ok false else eqRow l i rest (j + 1)

/-- The outer loop of Matrix.__eq__ over the stored rows. -/
def eqRows (l : List (List ℚ)) : ℕ → List (List ℚ) → Except MathError Bool
  | _, [] => .ok true
  | i, r :: rest =>
    match eqRow l i r 0 with
    | .ok true => eqRows l (i + 1) rest
    | other => other

/-- Matrix.__eq__ when the right operand is a plain list: the size check
is skipped and the matrix's own entries are compared against `l[i][j]`. -/
def eqList (m : MatrixQ) (l : List (List ℚ)) : Except MathError Bool :=
  eqRows l 0 m.mV

end MatrixQ

namespace VecR

/-- The radicand of Vector.norm : `sum([x*x for x in self.mV])`. -/
def sumSq (v : List ℝ) : ℝ :=
  (v.map (fun x => x * x)).sum

/-- Vector.norm : `math.sqrt(sum([x*x for x in self.mV]))`. -/
noncomputable def norm (v : List ℝ) : ℝ :=
  Real.sqrt (sumSq v)

open scoped Classical in
/-- Vector.normalize : `n = 1.0/self.norm()` raises ZeroDivisionError
exactly when the norm is zero; otherwise every element is multiplied by
`n` in place. -/
noncomputable def normalize (v : List ℝ) : Except MathError (List ℝ) :=
  if norm v = 0 then .error .divByZero
  else .ok (v.map (fun x => x * (1 / norm v)))

end VecR

/-- CoordinateSys : a name, an optional parent system, a basis Matrix and
an origin Vector (basis and origin are always present after construction,
defaulting to identity(3) and the zero vector). -/
inductive CSys where
  | mk (name : String) (parent : Option CSys) (basis : MatrixQ) (origin : List ℚ)

namespace CSys

/-- The mParent field. -/
def parent : CSys → Option CSys
  | .mk _ p _ _ => p

/-- The mBasis field. -/
def basis : CSys → MatrixQ
  | .mk _ _ b _ => b

/-- The mOrigin field. -/
def origin : CSys → List ℚ
  | .mk _ _ _ o => o

/-- Vector.__eq__ as a Boolean: a length check, then element-wise
comparison. -/
def vecEqB (a b : List ℚ) : Bool :=
  (a.length = b.length : Bool) && (a.zip b).all (fun p => p.1 = p.2)

/-- Matrix.__eq__ between two Matrix objects (the RHS is not a list, so
the size check runs first); the element loops are expressed over the
tracked dimensions, which coincide with the stored grid on the
well-formed matrices CoordinateSys builds. -/
def matEqB (m1 m2 : MatrixQ) : Bool :=
  ((m1.nrows, m1.ncols) = (m2.nrows, m2.ncols) : Bool) &&
  (List.range m1.nrows).all (fun i =>
    (List.range m1.ncols).all (fun j =>
      MatrixQ.getE m1.mV i j = MatrixQ.getE m2.mV i j))

/-- CoordinateSys.__eq__ : compares the parent chains recursively
(CoordinateSys.compare treats two absent parents as equal, one absent as
unequal), then the basis matrices, then the origins.  The name plays no
part. -/
def csysEq : CSys → CSys → Bool
  | .mk _ p1 b1 o1, .mk _ p2 b2 o2 =>
    (match p1, p2 with
     | none, none => true
     | some x, some y => csysEq x y
     | _, _ => false) && matEqB b1 b2 && vecEqB o1 o2

/-- Overwrite the mParent field. -/
def withParent : CSys → Option CSys → CSys
  | .mk n _ b o, p => .mk n p b o

/-- CoordinateSys.setParent : if the argument is present and compares
equal to `self` (structural equality, not identity), the parent field is
first overwritten with None and only then is the configuration error
raised; otherwise the field becomes the argument. -/
def setParent (c : CSys) (p : Option CSys) : Except (MathError × CSys) CSys :=
  match p with
  | some q => if csysEq q c then .error (.invalidArgument, withParent c none)
              else .ok (withParent c (some q))
  | none => .ok (withParent c none)

end CSys

namespace MatrixQ

/-- The list right-hand side covers the matrix: it has a row for every
row index of the matrix, each at least ncols long (rows may extend
beyond the matrix's dimensions). -/
def Covers (m : MatrixQ) (l : List (List ℚ)) : Prop :=
  ∀ i < m.nrows, i < l.length ∧ m.ncols ≤ (l.getD i []).length

/-- Every entry within the matrix's dimensions that the list also covers
agrees with the matrix's entry. -/
def Agrees (m : MatrixQ) (l : List (List ℚ)) : Prop :=
  ∀ i < m.nrows, ∀ j < m.ncols, j < (l.getD i []).length →
    (m.mV.getD i []).getD j 0 = (l.getD i []).getD j 0

instance (m : MatrixQ) (l : List (List ℚ)) : Decidable (Covers m l) :=
  inferInstanceAs (Decidable (∀ i < m.nrows, i < l.length ∧ m.ncols ≤ (l.getD i []).length))

instance (m : MatrixQ) (l : List (List ℚ)) : Decidable (Agrees m l) :=
  inferInstanceAs (Decidable (∀ i < m.nrows, ∀ j < m.ncols, j < (l.getD i []).length →
    (m.mV.getD i []).getD j 0 = (l.getD i []).getD j 0))

end MatrixQ

/-- Decidable equality for Except values, used to evaluate the embedded
operations on concrete inputs. -/
instance {ε α : Type} [DecidableEq ε] [DecidableEq α] : DecidableEq (Except ε α)
  | .ok a, .ok b =>
    if h : a = b then .isTrue (by rw [h])
    else .isFalse (by intro hc; cases hc; exact h rfl)
  | .error e, .error f =>
    if h : e = f then .isTrue (by rw [h])
    else .isFalse (by intro hc; cases hc; exact h rfl)
  | .ok _, .error _ => .isFalse (by intro hc; cases hc)
  | .error _, .ok _ => .isFalse (by intro hc; cases hc)

namespace MatrixQ

/-- A predicate preserved by every step of a fold is preserved by the
whole fold. -/
theorem foldl_preserve {α β : Type} (P : α → Prop) (f : α → β → α) (l : List β) (a : α)
    (hf : ∀ x b, P x → P (f x b)) (ha : P a) : P (l.foldl f a) := by
  induction l generalizing a with
  | nil => exact ha
  | cons b bs ih => exact ih _ (hf _ _ ha)

theorem WF_iff_Dims (m : MatrixQ) : m.WF ↔ Dims m.nrows m.ncols m.mV := Iff.rfl

/-- Writing one element never changes the shape of the grid. -/
theorem Dims_setE {nr nc : ℕ} {mv : List (List ℚ)} (i j : ℕ) (x : ℚ)
    (h : Dims nr nc mv) : Dims nr nc (setE mv i j x) := by
  obtain ⟨hl, hr⟩ := h
  by_cases hi : i < mv.length
  · constructor
    · rw [setE, List.length_set]
      exact hl
    · intro r hmem
      rcases List.mem_or_eq_of_mem_set hmem with h1 | h1
      · exact hr r h1
      · subst h1
        rw [List.length_set]
        have hmem2 : mv.getD i [] ∈ mv := by
          rw [List.getD_eq_getElem _ _ hi]
          exact List.getElem_mem hi
        exact hr _ hmem2
  · rw [setE, List.set_eq_of_length_le (Nat.le_of_not_lt hi)]
    exact ⟨hl, hr⟩

theorem Dims_luReduceAbove {nr nc : ℕ} {mv : List (List ℚ)} (j : ℕ)
    (h : Dims nr nc mv) : Dims nr nc (luReduceAbove j mv) :=
  foldl_preserve (Dims nr nc) _ _ _ (fun _ _ hx => Dims_setE _ _ _ hx) h

theorem Dims_luReduceBelow {nr nc : ℕ} {mv : List (List ℚ)}
    (n j : ℕ) (vv : List ℚ) (imax0 : ℤ)
    (h : Dims nr nc mv) : Dims nr nc (luReduceBelow n j vv mv imax0).1 := by
  unfold luReduceBelow
  refine foldl_preserve (fun t : List (List ℚ) × ℚ × ℤ => Dims nr nc t.1) _ _ _ ?_ h
  intro x b hx
  dsimp only
  split
  · exact Dims_setE _ _ _ hx
  · exact Dims_setE _ _ _ hx

theorem Dims_luSwap {nr nc : ℕ} {mv : List (List ℚ)} (n r1 r2 : ℕ)
    (h : Dims nr nc mv) : Dims nr nc (luSwap n r1 r2 mv) :=
  foldl_preserve (Dims nr nc) _ _ _
    (fun _ _ hx => Dims_setE _ _ _ (Dims_setE _ _ _ hx)) h

theorem Dims_luDivide {nr nc : ℕ} {mv : List (List ℚ)} (n j : ℕ)
    (h : Dims nr nc mv) : Dims nr nc (luDivide n j mv) :=
  foldl_preserve (Dims nr nc) _ _ _ (fun _ _ hx => Dims_setE _ _ _ hx) h

/-- Every phase of the elimination loop is made of element writes, row
swaps and divisions in place: the shape is preserved. -/
theorem Dims_luStep {nr nc : ℕ} (n : ℕ) (s : LUState) (j : ℕ)
    (h : Dims nr nc s.mv) : Dims nr nc (luStep n s j).mv := by
  unfold luStep
  dsimp only
  have h2 : Dims nr nc (luReduceBelow n j s.vv (luReduceAbove j s.mv) s.imax).1 :=
    Dims_luReduceBelow _ _ _ _ (Dims_luReduceAbove _ h)
  have h4 : Dims nr nc
      (if (j : ℤ) ≠ (luReduceBelow n j s.vv (luReduceAbove j s.mv) s.imax).2.2 then
        luSwap n (luReduceBelow n j s.vv (luReduceAbove j s.mv) s.imax).2.2.toNat j
          (luReduceBelow n j s.vv (luReduceAbove j s.mv) s.imax).1
      else (luReduceBelow n j s.vv (luReduceAbove j s.mv) s.imax).1) := by
    split
    · exact Dims_luSwap _ _ _ h2
    · exact h2
  set mv4 := (if (j : ℤ) ≠ (luReduceBelow n j s.vv (luReduceAbove j s.mv) s.imax).2.2 then
        luSwap n (luReduceBelow n j s.vv (luReduceAbove j s.mv) s.imax).2.2.toNat j
          (luReduceBelow n j s.vv (luReduceAbove j s.mv) s.imax).1
      else (luReduceBelow n j s.vv (luReduceAbove j s.mv) s.imax).1) with hmv4
  have h5 : Dims nr nc (if getE mv4 j j = 0 then setE mv4 j j TINY else mv4) := by
    split
    · exact Dims_setE _ _ _ h4
    · exact h4
  set mv5 := (if getE mv4 j j = 0 then setE mv4 j j TINY else mv4) with hmv5
  split
  · exact Dims_luDivide _ _ h5
  · exact h5

/-- ludecomp leaves a well-formed matrix well-formed, on both the error
path (contents untouched) and the success path. -/
theorem WF_ludecomp (m : MatrixQ) (h : m.WF) : (ludecomp m).2.WF := by
  unfold ludecomp
  dsimp only
  split
  · exact h
  · rw [WF_iff_Dims]
    dsimp only
    refine foldl_preserve (fun s : LUState => Dims m.nrows m.ncols s.mv) _ _ _ ?_ h
    intro s j hs
    exact Dims_luStep _ _ _ hs

end MatrixQ

namespace MatrixQ

theorem WF_matrixKW (r c : ℕ) : (matrixKW r c).WF := by
  constructor
  · simp [matrixKW]
  · intro row hrow
    simp only [matrixKW] at hrow
    rw [List.eq_of_mem_replicate hrow]
    simp [matrixKW]

theorem WF_setElem (m : MatrixQ) (i j : ℕ) (x : ℚ) (h : m.WF) : (setElem m i j x).WF :=
  Dims_setE _ _ _ h

theorem WF_setRow (m : MatrixQ) (i : ℕ) (r : List ℚ) (h : m.WF)
    (hr : r.length = m.ncols) : (setRow m i r).WF := by
  obtain ⟨hl, hrows⟩ := h
  constructor
  · rw [setRow, List.length_set]
    exact hl
  · intro row hrow
    rcases List.mem_or_eq_of_mem_set hrow with h1 | h1
    · exact hrows row h1
    · rw [h1]
      exact hr

theorem WF_scale (m : MatrixQ) (s : ℚ) (h : m.WF) : (scale m s).WF := by
  obtain ⟨hl, hrows⟩ := h
  constructor
  · rw [scale, List.length_map]
    exact hl
  · intro row hrow
    obtain ⟨row0, h0, rfl⟩ := List.mem_map.mp hrow
    rw [List.length_map]
    exact hrows row0 h0

theorem WF_roundM (m : MatrixQ) (places : ℕ) (h : m.WF) : (roundM m places).WF := by
  obtain ⟨hl, hrows⟩ := h
  constructor
  · rw [roundM, List.length_map]
    exact hl
  · intro row hrow
    obtain ⟨row0, h0, rfl⟩ := List.mem_map.mp hrow
    refine foldl_preserve (fun r : List ℚ => r.length = m.ncols) _ _ _ ?_ (hrows row0 h0)
    intro r i hlen
    rw [List.length_set]
    exact hlen

theorem WF_addM (m1 m2 m3 : MatrixQ) (h : addM m1 m2 = .ok m3) : m3.WF := by
  unfold addM at h
  split at h
  · exact absurd h (by simp)
  · rw [Except.ok.injEq] at h
    subst h
    constructor
    · simp
    · intro row hrow
      obtain ⟨i, _, rfl⟩ := List.mem_map.mp hrow
      simp

theorem WF_multm (m1 m2 m3 : MatrixQ) (h : multm m1 m2 = .ok m3) : m3.WF := by
  unfold multm at h
  split at h
  · exact absurd h (by simp)
  · rw [Except.ok.injEq] at h
    subst h
    refine foldl_preserve WF _ _ _ ?_ ?_
    · intro M i hM
      refine foldl_preserve WF _ _ _ ?_ hM
      intro M' j hM'
      exact Dims_setE _ _ _ hM'
    · exact WF_matrixKW _ _

theorem WF_transpose (m : MatrixQ) : (transpose m).WF := by
  unfold transpose
  refine foldl_preserve WF _ _ _ ?_ ?_
  · intro M i hM
    refine foldl_preserve WF _ _ _ ?_ hM
    intro M' j hM'
    exact Dims_setE _ _ _ hM'
  · exact WF_matrixKW _ _

end MatrixQ

namespace MatrixQ

theorem mem_le_maxLen (args : List (List ℚ)) (r : List ℚ) (h : r ∈ args) :
    r.length ≤ maxLen args := by
  induction args with
  | nil => cases h
  | cons a as ih =>
    have hstep : maxLen (a :: as) = max a.length (maxLen as) := rfl
    rcases List.mem_cons.mp h with h1 | h1
    · subst h1
      rw [hstep]
      exact le_max_left _ _
    · rw [hstep]
      exact le_trans (ih h1) (le_max_right _ _)

theorem Dims_mv0 (args : List (List ℚ)) :
    Dims args.length (if args.isEmpty then 0 else maxLen args)
      (args.map (fun r =>
        r ++ List.replicate ((if args.isEmpty then 0 else maxLen args) - r.length) 0)) := by
  constructor
  · simp
  · intro row hrow
    obtain ⟨r0, h0, rfl⟩ := List.mem_map.mp hrow
    have hne : args.isEmpty = false := by
      cases args
      · cases h0
      · rfl
    have hle := mem_le_maxLen args r0 h0
    simp only [hne, Bool.false_eq_true, if_false, List.length_append,
      List.length_replicate]
    omega

theorem Dims_addRows {nr nc : ℕ} {mv : List (List ℚ)} (h : Dims nr nc mv)
    (r : ℕ) (hr : nr ≤ r) :
    Dims r nc (mv ++ List.replicate (r - nr) (List.replicate nc 0)) := by
  obtain ⟨hl, hrows⟩ := h
  constructor
  · simp only [List.length_append, List.length_replicate, hl]
    omega
  · intro row hrow
    rcases List.mem_append.mp hrow with h1 | h1
    · exact hrows _ h1
    · rw [List.eq_of_mem_replicate h1]
      simp

theorem Dims_addCols {nr nc : ℕ} {mv : List (List ℚ)} (h : Dims nr nc mv)
    (c : ℕ) (hc : nc ≤ c) :
    Dims nr c (mv.map (fun row => row ++ List.replicate (c - nc) 0)) := by
  obtain ⟨hl, hrows⟩ := h
  constructor
  · simp only [List.length_map, hl]
  · intro row hrow
    obtain ⟨r0, h0, rfl⟩ := List.mem_map.mp hrow
    simp only [List.length_append, List.length_replicate, hrows r0 h0]
    omega

theorem WF_matrixInit (args : List (List ℚ)) (kr kc : Option ℕ) (m : MatrixQ)
    (h : matrixInit args kr kc = .ok m) : m.WF := by
  unfold matrixInit at h
  by_cases h1 : ∃ r, kr = some r ∧ r < args.length
  · rw [if_pos h1] at h
    simp at h
  rw [if_neg h1] at h
  by_cases h2 : ∃ c, kc = some c ∧ c < (if args.isEmpty then 0 else maxLen args)
  · rw [if_pos h2] at h
    simp at h
  rw [if_neg h2] at h
  push_neg at h1 h2
  rcases kr with _ | r <;> rcases kc with _ | c <;>
    simp only [Except.ok.injEq] at h <;> subst h
  · exact Dims_mv0 args
  · exact Dims_addCols
      (Dims_addRows (Dims_mv0 args) _ (Nat.le_max_left _ _)) _
      (h2 c rfl)
  · exact Dims_addCols
      (Dims_addRows (Dims_mv0 args) _ (h1 r rfl)) _
      (Nat.le_max_left _ _)
  · exact Dims_addCols
      (Dims_addRows (Dims_mv0 args) _ (h1 r rfl)) _
      (h2 c rfl)

end MatrixQ

namespace MatrixQ

theorem rowMaxAbs_le_acc (row : List ℚ) (l : List ℕ) (acc : ℚ) :
    acc ≤ l.foldl (fun big j => let temp := |row.getD j 0|
                                if temp > big then temp else big) acc := by
  induction l generalizing acc with
  | nil => exact le_refl _
  | cons j js ih =>
    refine le_trans ?_ (ih _)
    dsimp only
    split
    · exact le_of_lt (by assumption)
    · exact le_refl _

theorem le_rowMaxAbs_of_mem (row : List ℚ) (l : List ℕ) (acc : ℚ) (j : ℕ) (hj : j ∈ l) :
    |row.getD j 0| ≤ l.foldl (fun big j => let temp := |row.getD j 0|
                                           if temp > big then temp else big) acc := by
  induction l generalizing acc with
  | nil => cases hj
  | cons k ks ih =>
    rcases List.mem_cons.mp hj with h1 | h1
    · subst h1
      refine le_trans ?_ (rowMaxAbs_le_acc row ks _)
      dsimp only
      split
      · exact le_refl _
      · exact le_of_not_lt (by assumption)
    · exact ih _ h1

theorem rowMaxAbs_of_zeros (row : List ℚ) (l : List ℕ)
    (h : ∀ j ∈ l, row.getD j 0 = 0) :
    l.foldl (fun big j => let temp := |row.getD j 0|
                          if temp > big then temp else big) 0 = 0 := by
  induction l with
  | nil => rfl
  | cons k ks ih =>
    have hk : row.getD k 0 = 0 := h k (List.mem_cons_self _ _)
    rw [List.foldl_cons]
    have hacc : (let temp := |row.getD k 0|
                 if temp > (0 : ℚ) then temp else 0) = 0 := by
      rw [hk]
      simp
    rw [hacc]
    exact ih (fun j hj => h j (List.mem_cons_of_mem _ hj))

theorem rowMaxAbs_eq_zero_iff (row : List ℚ) (n : ℕ) :
    rowMaxAbs row n = 0 ↔ ∀ j < n, row.getD j 0 = 0 := by
  constructor
  · intro h j hj
    have := le_rowMaxAbs_of_mem row (List.range n) 0 j (List.mem_range.mpr hj)
    rw [rowMaxAbs] at h
    rw [h] at this
    exact abs_eq_zero.mp (le_antisymm this (abs_nonneg _))
  · intro h
    rw [rowMaxAbs]
    exact rowMaxAbs_of_zeros row (List.range n) (fun j hj => h j (List.mem_range.mp hj))

theorem vvLoop_error_singular (mv : List (List ℚ)) (n : ℕ) (l : List ℕ) (e : MathError)
    (h : vvLoop mv n l = .error e) : e = .singular := by
  induction l with
  | nil => simp [vvLoop] at h
  | cons i rest ih =>
    rw [vvLoop] at h
    split at h
    · cases h
      rfl
    · split at h
      · cases h
        exact ih (by assumption)
      · cases h

theorem vvLoop_error_of_zero_row (mv : List (List ℚ)) (n : ℕ) (l : List ℕ)
    (h : ∃ i ∈ l, rowMaxAbs (mv.getD i []) n = 0) :
    vvLoop mv n l = .error .singular := by
  induction l with
  | nil => obtain ⟨i, hi, _⟩ := h; cases hi
  | cons k ks ih =>
    rw [vvLoop]
    by_cases hk : rowMaxAbs (mv.getD k []) n = 0
    · rw [if_pos hk]
    · rw [if_neg hk]
      obtain ⟨i, hi, hz⟩ := h
      rcases List.mem_cons.mp hi with h1 | h1
      · subst h1
        exact absurd hz hk
      · rw [ih ⟨i, h1, hz⟩]

theorem vvLoop_ok_of_no_zero_row (mv : List (List ℚ)) (n : ℕ) (l : List ℕ)
    (h : ∀ i ∈ l, rowMaxAbs (mv.getD i []) n ≠ 0) :
    ∃ vv, vvLoop mv n l = .ok vv := by
  induction l with
  | nil => exact ⟨[], rfl⟩
  | cons k ks ih =>
    rw [vvLoop, if_neg (h k (List.mem_cons_self _ _))]
    obtain ⟨vv, hvv⟩ := ih (fun i hi => h i (List.mem_cons_of_mem _ hi))
    rw [hvv]
    exact ⟨_, rfl⟩

end MatrixQ

namespace MatrixQ

theorem get?_eq_some_getD {α : Type} [Inhabited α] (l : List α) (i : ℕ) (d : α)
    (h : i < l.length) : l.get? i = some (l.getD i d) := by
  rw [List.get?_eq_getElem?, List.getElem?_eq_getElem h, List.getD_eq_getElem _ _ h]

/-- A row comparison succeeds when the list row is long enough and all
compared entries match. -/
theorem eqRow_ok (l : List (List ℚ)) (i : ℕ) (lr : List ℚ) (hl : l.get? i = some lr)
    (row : List ℚ) (j : ℕ)
    (hcov : j + row.length ≤ lr.length)
    (hag : ∀ k, k < row.length → row.getD k 0 = lr.getD (j + k) 0) :
    eqRow l i row j = .ok true := by
  induction row generalizing j with
  | nil => rfl
  | cons x rest ih =>
    simp only [eqRow, hl]
    have hj : j < lr.length := by
      simp only [List.length_cons] at hcov
      omega
    rw [get?_eq_some_getD lr j 0 hj]
    dsimp only
    have hx : x = lr.getD j 0 := by
      have := hag 0 (by simp)
      simpa using this
    rw [if_neg (by simp [hx])]
    refine ih (j + 1) ?_ ?_
    · simp only [List.length_cons] at hcov
      omega
    · intro k hk
      have := hag (k + 1) (by simp only [List.length_cons]; omega)
      rw [show j + 1 + k = j + (k + 1) by omega]
      simpa using this

/-- A row comparison hits the IndexError at the first out-of-range
access when the list row is too short and every compared entry before it
matched. -/
theorem eqRow_err (l : List (List ℚ)) (i : ℕ) (lr : List ℚ) (hl : l.get? i = some lr)
    (row : List ℚ) (j : ℕ)
    (hshort : lr.length < j + row.length) (hj : j ≤ lr.length)
    (hag : ∀ k, k < row.length → j + k < lr.length → row.getD k 0 = lr.getD (j + k) 0) :
    eqRow l i row j = .error .indexError := by
  induction row generalizing j with
  | nil =>
    simp only [List.length_nil, Nat.add_zero] at hshort
    exact absurd hj (by omega)
  | cons x rest ih =>
    simp only [eqRow, hl]
    by_cases hjlt : j < lr.length
    · rw [get?_eq_some_getD lr j 0 hjlt]
      dsimp only
      have hx : x = lr.getD j 0 := by
        have := hag 0 (by simp) (by simpa)
        simpa using this
      rw [if_neg (by simp [hx])]
      refine ih (j + 1) ?_ (by omega) ?_
      · simp only [List.length_cons] at hshort
        omega
      · intro k hk hk2
        have := hag (k + 1) (by simp only [List.length_cons]; omega)
          (by omega : j + (k + 1) < lr.length)
        rw [show j + 1 + k = j + (k + 1) by omega]
        simpa using this
    · rw [List.get?_eq_getElem?, List.getElem?_eq_none (Nat.le_of_not_lt hjlt)]

/-- The row loop succeeds when every stored row is covered and agrees. -/
theorem eqRows_ok (l : List (List ℚ)) (rows : List (List ℚ)) (i : ℕ)
    (h : ∀ k r, rows.get? k = some r →
      ∃ lr, l.get? (i + k) = some lr ∧ r.length ≤ lr.length ∧
        ∀ j, j < r.length → r.getD j 0 = lr.getD j 0) :
    eqRows l i rows = .ok true := by
  induction rows generalizing i with
  | nil => rfl
  | cons r rest ih =>
    obtain ⟨lr, hlr, hlen, hag⟩ := h 0 r rfl
    rw [Nat.add_zero] at hlr
    have hok : eqRow l i r 0 = .ok true := by
      refine eqRow_ok l i lr hlr r 0 (by simpa) ?_
      intro k hk
      simpa using hag k hk
    rw [eqRows, hok]
    refine ih (i + 1) ?_
    intro k r' hk
    obtain ⟨lr', h1, h2, h3⟩ := h (k + 1) r' hk
    rw [show i + (k + 1) = i + 1 + k by omega] at h1
    exact ⟨lr', h1, h2, h3⟩

/-- The row loop raises the IndexError when some stored (nonempty) row
is not covered by the list, provided every covered entry agrees. -/
theorem eqRows_err (l : List (List ℚ)) (rows : List (List ℚ)) (i : ℕ)
    (hag : ∀ k r, rows.get? k = some r → ∀ lr, l.get? (i + k) = some lr →
      ∀ j, j < r.length → j < lr.length → r.getD j 0 = lr.getD j 0)
    (hbad : ∃ k r, rows.get? k = some r ∧ r ≠ [] ∧
      ∀ lr, l.get? (i + k) = some lr → lr.length < r.length) :
    eqRows l i rows = .error .indexError := by
  induction rows generalizing i with
  | nil =>
    obtain ⟨k, r, hk, _⟩ := hbad
    simp at hk
  | cons r rest ih =>
    have hshift : ∀ k r', rest.get? k = some r' → ∀ lr, l.get? (i + 1 + k) = some lr →
        ∀ j, j < r'.length → j < lr.length → r'.getD j 0 = lr.getD j 0 := by
      intro k r' hk lr hlr j h1 h2
      refine hag (k + 1) r' (by simpa using hk) lr ?_ j h1 h2
      rw [show i + (k + 1) = i + 1 + k by omega]
      exact hlr
    cases hli : l.get? i with
    | none =>
      cases r with
      | nil =>
        have hok : eqRow l i ([] : List ℚ) 0 = .ok true := rfl
        rw [eqRows, hok]
        refine ih (i + 1) hshift ?_
        obtain ⟨k, rb, hk, hne, hb⟩ := hbad
        cases k with
        | zero =>
          rw [List.get?_cons_zero, Option.some.injEq] at hk
          exact absurd hk.symm hne
        | succ k' =>
          refine ⟨k', rb, by simpa using hk, hne, ?_⟩
          intro lr hlr
          refine hb lr ?_
          rw [show i + (k' + 1) = i + 1 + k' by omega]
          exact hlr
      | cons x xs =>
        have herr : eqRow l i (x :: xs) 0 = .error .indexError := by
          simp only [eqRow, hli]
        rw [eqRows, herr]
    | some lr =>
      by_cases hcase : lr.length < r.length
      · have herr : eqRow l i r 0 = .error .indexError := by
          refine eqRow_err l i lr hli r 0 (by simpa) (Nat.zero_le _) ?_
          intro k hk hk2
          simpa using hag 0 r rfl lr (by simpa using hli) k hk (by simpa using hk2)
        rw [eqRows, herr]
      · have hok : eqRow l i r 0 = .ok true := by
          refine eqRow_ok l i lr hli r 0 (by omega) ?_
          intro k hk
          simpa using hag 0 r rfl lr (by simpa using hli) k hk (by omega)
        rw [eqRows, hok]
        refine ih (i + 1) hshift ?_
        obtain ⟨k, rb, hk, hne, hb⟩ := hbad
        cases k with
        | zero =>
          rw [List.get?_cons_zero, Option.some.injEq] at hk
          subst hk
          have := hb lr (by simpa using hli)
          exact absurd this hcase
        | succ k' =>
          refine ⟨k', rb, by simpa using hk, hne, ?_⟩
          intro lr' hlr'
          refine hb lr' ?_
          rw [show i + (k' + 1) = i + 1 + k' by omega]
          exact hlr'

end MatrixQ

/-- C1: the claim says that for a nonsingular matrix, ludecomp followed by
lubacksub solves A·x = b exactly over exact arithmetic.  The code does not:
for the nonsingular A = [[2,1],[1,3]] and b = [3,4] (exact solution
x = [1,1]), the decomposition succeeds with index [0,1], but lubacksub
returns [7/10, 8/5], and A times that vector is [3, 11/2] ≠ b — the
forward-substitution `ii` bookkeeping mistranslates the 1-based original,
skipping the subtraction of L[i][0]·y[0] terms, as the source's own
disabled unit test acknowledges. -/
theorem C1_lubacksub_does_not_solve :
    (MatrixQ.ludecomp ⟨2, 2, [[2, 1], [1, 3]]⟩).1 = .ok ([0, 1], 1) ∧
    MatrixQ.lubacksub (MatrixQ.ludecomp ⟨2, 2, [[2, 1], [1, 3]]⟩).2 [0, 1] [3, 4] =
      [7/10, 8/5] ∧
    MatrixQ.multv ⟨2, 2, [[2, 1], [1, 3]]⟩ [7/10, 8/5] = .ok [3, 11/2] ∧
    (Except.ok [3, 11/2] : Except MathError (List ℚ)) ≠ .ok [3, 4] := by
  with_unfolding_all decide

/-- C2: the geometric-form multiplication mul1 and the component-form
multiplication mul2 agree on every pair of quaternions (whose stored
vectors, as built by every constructor, have exactly 3 elements),
mul1 returning successfully with exactly mul2's components. -/
theorem C2_mul1_eq_mul2 (p q : Quat) (hp : p.v.length = 3) (hq : q.v.length = 3) :
    Quat.mul1 p q = .ok (Quat.mul2 p q) := by
  obtain ⟨a1, b1, c1, hv1⟩ := List.length_eq_three.mp hp
  obtain ⟨a2, b2, c2, hv2⟩ := List.length_eq_three.mp hq
  simp [Quat.mul1, Quat.mul2, Vec.dotE, Vec.addE, Vec.crossE, Vec.multsU,
    Quat.fromScalarVector, Quat.mk4, hv1, hv2,
    bind, Except.bind, Functor.map, Except.map, pure, Except.pure]
  refine ⟨by ring_nf, by ring_nf, by ring_nf, by ring_nf⟩

/-- Witness for C2 at p = (1,2,3,4), q = (4,3,2,1). -/
theorem C2_mul1_eq_mul2_witness :
    (Quat.mk4 1 2 3 4).v.length = 3 ∧ (Quat.mk4 4 3 2 1).v.length = 3 ∧
    Quat.mul1 (Quat.mk4 1 2 3 4) (Quat.mk4 4 3 2 1) =
      .ok (Quat.mul2 (Quat.mk4 1 2 3 4) (Quat.mk4 4 3 2 1)) :=
  ⟨rfl, rfl, C2_mul1_eq_mul2 (Quat.mk4 1 2 3 4) (Quat.mk4 4 3 2 1) rfl rfl⟩

/-- C3 counterexample: the claim requires roundsd to raise InvalidArgument
for EVERY input value when the digit count is out of range, but for input
exactly zero the zero check runs first: roundsd(0, 15) returns 0 instead
of raising. -/
theorem C3_counterexample :
    MathUtil.roundsd 0 15 = .ok 0 ∧
    MathUtil.roundsd 0 15 ≠ .error .invalidArgument := by
  with_unfolding_all decide

/-- C3 as amended: for every NONZERO input and digit count d ≤ 0 or
d > 10, roundsd raises InvalidArgument; for input exactly zero it returns
zero unchanged for any digit count (the zero check precedes the digit
check). -/
theorem C3_roundsd_domain (f : ℚ) (d : ℤ) :
    (f ≠ 0 → (d ≤ 0 ∨ d > 10) → MathUtil.roundsd f d = .error .invalidArgument) ∧
    (f = 0 → MathUtil.roundsd f d = .ok 0) := by
  constructor
  · intro hf hd
    simp [MathUtil.roundsd, hf, hd]
  · intro hf
    subst hf
    simp [MathUtil.roundsd]

/-- Witness for C3 at f = 1, d = 11 and f = 0, d = 7. -/
theorem C3_roundsd_domain_witness :
    ((1 : ℚ) ≠ 0 ∧ ((11 : ℤ) ≤ 0 ∨ (11 : ℤ) > 10) ∧
      MathUtil.roundsd 1 11 = .error .invalidArgument) ∧
    ((0 : ℚ) = 0 ∧ MathUtil.roundsd 0 7 = .ok 0) :=
  ⟨⟨by norm_num, Or.inr (by norm_num),
    (C3_roundsd_domain 1 11).1 (by norm_num) (Or.inr (by norm_num))⟩,
   ⟨rfl, (C3_roundsd_domain 0 7).2 rfl⟩⟩

/-- C5: with i = (0,1,0,0), j = (0,0,1,0), k = (0,0,0,1), both mul1 and
mul2 satisfy Hamilton's basis laws: i·i = j·j = k·k = -1, i·j·k = -1,
i·j = k, j·k = i, k·i = j, and j·i = -k, k·j = -i, i·k = -j, under exact
component-wise quaternion equality. -/
theorem C5_basis_laws :
    (Quat.mul1 (Quat.mk4 0 1 0 0) (Quat.mk4 0 1 0 0) = .ok (Quat.mk4 (-1) 0 0 0) ∧
     Quat.mul1 (Quat.mk4 0 0 1 0) (Quat.mk4 0 0 1 0) = .ok (Quat.mk4 (-1) 0 0 0) ∧
     Quat.mul1 (Quat.mk4 0 0 0 1) (Quat.mk4 0 0 0 1) = .ok (Quat.mk4 (-1) 0 0 0) ∧
     (Quat.mul1 (Quat.mk4 0 1 0 0) (Quat.mk4 0 0 1 0)).bind
       (fun r => Quat.mul1 r (Quat.mk4 0 0 0 1)) = .ok (Quat.mk4 (-1) 0 0 0) ∧
     Quat.mul1 (Quat.mk4 0 1 0 0) (Quat.mk4 0 0 1 0) = .ok (Quat.mk4 0 0 0 1) ∧
     Quat.mul1 (Quat.mk4 0 0 1 0) (Quat.mk4 0 0 0 1) = .ok (Quat.mk4 0 1 0 0) ∧
     Quat.mul1 (Quat.mk4 0 0 0 1) (Quat.mk4 0 1 0 0) = .ok (Quat.mk4 0 0 1 0) ∧
     Quat.mul1 (Quat.mk4 0 0 1 0) (Quat.mk4 0 1 0 0) = .ok (Quat.mk4 0 0 0 (-1)) ∧
     Quat.mul1 (Quat.mk4 0 0 0 1) (Quat.mk4 0 0 1 0) = .ok (Quat.mk4 0 (-1) 0 0) ∧
     Quat.mul1 (Quat.mk4 0 1 0 0) (Quat.mk4 0 0 0 1) = .ok (Quat.mk4 0 0 (-1) 0)) ∧
    (Quat.mul2 (Quat.mk4 0 1 0 0) (Quat.mk4 0 1 0 0) = Quat.mk4 (-1) 0 0 0 ∧
     Quat.mul2 (Quat.mk4 0 0 1 0) (Quat.mk4 0 0 1 0) = Quat.mk4 (-1) 0 0 0 ∧
     Quat.mul2 (Quat.mk4 0 0 0 1) (Quat.mk4 0 0 0 1) = Quat.mk4 (-1) 0 0 0 ∧
     Quat.mul2 (Quat.mul2 (Quat.mk4 0 1 0 0) (Quat.mk4 0 0 1 0)) (Quat.mk4 0 0 0 1) =
       Quat.mk4 (-1) 0 0 0 ∧
     Quat.mul2 (Quat.mk4 0 1 0 0) (Quat.mk4 0 0 1 0) = Quat.mk4 0 0 0 1 ∧
     Quat.mul2 (Quat.mk4 0 0 1 0) (Quat.mk4 0 0 0 1) = Quat.mk4 0 1 0 0 ∧
     Quat.mul2 (Quat.mk4 0 0 0 1) (Quat.mk4 0 1 0 0) = Quat.mk4 0 0 1 0 ∧
     Quat.mul2 (Quat.mk4 0 0 1 0) (Quat.mk4 0 1 0 0) = Quat.mk4 0 0 0 (-1) ∧
     Quat.mul2 (Quat.mk4 0 0 0 1) (Quat.mk4 0 0 1 0) = Quat.mk4 0 (-1) 0 0 ∧
     Quat.mul2 (Quat.mk4 0 1 0 0) (Quat.mk4 0 0 0 1) = Quat.mk4 0 0 (-1) 0) := by
  with_unfolding_all decide

namespace VecR

/-- The radicand of the norm is a sum of squares, hence nonnegative. -/
theorem sumSq_nonneg (v : List ℝ) : 0 ≤ sumSq v := by
  refine List.sum_nonneg ?_
  intro x hx
  obtain ⟨y, _, rfl⟩ := List.mem_map.mp hx
  exact mul_self_nonneg y

/-- Scaling every element by c scales the sum of squares by c². -/
theorem sumSq_smul (v : List ℝ) (c : ℝ) :
    sumSq (v.map (fun x => x * c)) = c ^ 2 * sumSq v := by
  induction v with
  | nil => simp [sumSq]
  | cons x xs ih =>
    simp [sumSq, List.sum_cons] at ih ⊢
    rw [ih]
    ring

end VecR

/-- C7: for 3-element vectors a and b, cross is antisymmetric
(a×b is the element-wise negation of b×a) and a·(a×b) = 0 exactly;
cross raises the dimension error whenever either operand does not have
exactly 3 elements. -/
theorem C7_cross_properties (a b : List ℚ) :
    (a.length = 3 → b.length = 3 →
      ∃ c d, Vec.crossE a b = .ok c ∧ Vec.crossE b a = .ok d ∧
        c = d.map (fun x => -x) ∧ Vec.dotE a c = .ok 0) ∧
    ((a.length ≠ 3 ∨ b.length ≠ 3) → Vec.crossE a b = .error .indexError) := by
  constructor
  · intro ha hb
    obtain ⟨a1, a2, a3, rfl⟩ := List.length_eq_three.mp ha
    obtain ⟨b1, b2, b3, rfl⟩ := List.length_eq_three.mp hb
    refine ⟨_, _, rfl, rfl, ?_, ?_⟩
    · simp [Vec.crossE]
    · simp [Vec.crossE, Vec.dotE]
      ring
  · intro h
    simp [Vec.crossE, h]

/-- Witness for C7 at a = [1,2,3], b = [4,5,6] (cross-product laws) and
a = [1,2], b = [4,5,6] (dimension error). -/
theorem C7_cross_properties_witness :
    (([1, 2, 3] : List ℚ).length = 3 ∧ ([4, 5, 6] : List ℚ).length = 3 ∧
      ∃ c d, Vec.crossE [1, 2, 3] [4, 5, 6] = .ok c ∧
        Vec.crossE [4, 5, 6] [1, 2, 3] = .ok d ∧
        c = d.map (fun x => -x) ∧ Vec.dotE [1, 2, 3] c = .ok 0) ∧
    Vec.crossE [1, 2] [4, 5, 6] = .error .indexError :=
  ⟨⟨rfl, rfl, (C7_cross_properties [1, 2, 3] [4, 5, 6]).1 rfl rfl⟩,
   (C7_cross_properties [1, 2] [4, 5, 6]).2 (Or.inl (by norm_num))⟩

/-- C8: normalize divides every element by the current norm; when the norm
is nonzero the result has norm exactly 1, and the call raises the
division-by-zero error exactly when the norm is zero (the only error
case, unreachable under the nonzero-norm precondition). -/
theorem C8_normalize_norm_one (v : List ℝ) :
    (VecR.norm v ≠ 0 → ∃ w, VecR.normalize v = .ok w ∧ VecR.norm w = 1) ∧
    (VecR.norm v = 0 → VecR.normalize v = .error .divByZero) := by
  constructor
  · intro h
    refine ⟨v.map (fun x => x * (1 / VecR.norm v)), ?_, ?_⟩
    · rw [VecR.normalize, if_neg h]
    · have hnn : 0 ≤ VecR.sumSq v := VecR.sumSq_nonneg v
      have hsq : VecR.norm v ^ 2 = VecR.sumSq v := Real.sq_sqrt hnn
      have hS : VecR.sumSq v ≠ 0 := by
        intro h0
        exact h (by simp [VecR.norm, h0])
      rw [VecR.norm, VecR.sumSq_smul]
      rw [one_div, inv_pow, hsq, inv_mul_cancel₀ hS]
      exact Real.sqrt_one
  · intro h
    simp [VecR.normalize, h]

/-- Witness for C8 at v = [3, 4], whose norm is 5. -/
theorem C8_normalize_norm_one_witness :
    VecR.norm [3, 4] ≠ 0 ∧
    (∃ w, VecR.normalize [3, 4] = .ok w ∧ VecR.norm w = 1) := by
  have h25 : VecR.sumSq [3, 4] = 25 := by norm_num [VecR.sumSq]
  have h5 : VecR.norm [(3 : ℝ), 4] = 5 := by
    rw [VecR.norm, h25, show (25 : ℝ) = 5 ^ 2 by norm_num]
    exact Real.sqrt_sq (by norm_num)
  have h : VecR.norm [(3 : ℝ), 4] ≠ 0 := by rw [h5]; norm_num
  exact ⟨h, (C8_normalize_norm_one [3, 4]).1 h⟩

/-- C10: setParent raises the configuration error whenever its argument
compares equal to the system under CoordinateSys equality (a structural
comparison that ignores the name, so distinct objects can trigger it),
and has then already overwritten the parent field with None, discarding
any previous parent; a non-raising call sets the parent field to exactly
the argument. -/
theorem C10_setParent_overwrites (c : CSys) (p : Option CSys) :
    (∀ q, p = some q → CSys.csysEq q c = true →
      CSys.setParent c p = .error (.invalidArgument, CSys.withParent c none)) ∧
    ((∀ q, p = some q → CSys.csysEq q c = false) →
      CSys.setParent c p = .ok (CSys.withParent c p)) := by
  constructor
  · rintro q rfl h
    simp [CSys.setParent, h]
  · intro h
    match p with
    | none => rfl
    | some q => simp [CSys.setParent, h q rfl]

/-- Witness for C10: two structurally equal systems with different names
("a" and "b", both parentless with identity basis and zero origin);
setParent errors and wipes the parent field, and a call with a
non-equal parent (different origin) succeeds. -/
theorem C10_setParent_overwrites_witness :
    (CSys.csysEq
        (CSys.mk "b" none ⟨3, 3, [[1, 0, 0], [0, 1, 0], [0, 0, 1]]⟩ [0, 0, 0])
        (CSys.mk "a" none ⟨3, 3, [[1, 0, 0], [0, 1, 0], [0, 0, 1]]⟩ [0, 0, 0]) = true ∧
      CSys.setParent
        (CSys.mk "a" none ⟨3, 3, [[1, 0, 0], [0, 1, 0], [0, 0, 1]]⟩ [0, 0, 0])
        (some (CSys.mk "b" none ⟨3, 3, [[1, 0, 0], [0, 1, 0], [0, 0, 1]]⟩ [0, 0, 0])) =
      .error (.invalidArgument,
        CSys.withParent
          (CSys.mk "a" none ⟨3, 3, [[1, 0, 0], [0, 1, 0], [0, 0, 1]]⟩ [0, 0, 0]) none)) ∧
    (CSys.csysEq
        (CSys.mk "b" none ⟨3, 3, [[1, 0, 0], [0, 1, 0], [0, 0, 1]]⟩ [7, 0, 0])
        (CSys.mk "a" none ⟨3, 3, [[1, 0, 0], [0, 1, 0], [0, 0, 1]]⟩ [0, 0, 0]) = false ∧
      CSys.setParent
        (CSys.mk "a" none ⟨3, 3, [[1, 0, 0], [0, 1, 0], [0, 0, 1]]⟩ [0, 0, 0])
        (some (CSys.mk "b" none ⟨3, 3, [[1, 0, 0], [0, 1, 0], [0, 0, 1]]⟩ [7, 0, 0])) =
      .ok (CSys.withParent
        (CSys.mk "a" none ⟨3, 3, [[1, 0, 0], [0, 1, 0], [0, 0, 1]]⟩ [0, 0, 0])
        (some (CSys.mk "b" none ⟨3, 3, [[1, 0, 0], [0, 1, 0], [0, 0, 1]]⟩ [7, 0, 0])))) := by
  have h1 : CSys.csysEq
      (CSys.mk "b" none ⟨3, 3, [[1, 0, 0], [0, 1, 0], [0, 0, 1]]⟩ [0, 0, 0])
      (CSys.mk "a" none ⟨3, 3, [[1, 0, 0], [0, 1, 0], [0, 0, 1]]⟩ [0, 0, 0]) = true := by
    with_unfolding_all decide
  have h2 : CSys.csysEq
      (CSys.mk "b" none ⟨3, 3, [[1, 0, 0], [0, 1, 0], [0, 0, 1]]⟩ [7, 0, 0])
      (CSys.mk "a" none ⟨3, 3, [[1, 0, 0], [0, 1, 0], [0, 0, 1]]⟩ [0, 0, 0]) = false := by
    with_unfolding_all decide
  refine ⟨⟨h1, ?_⟩, ⟨h2, ?_⟩⟩
  · exact (C10_setParent_overwrites _ _).1 _ rfl h1
  · refine (C10_setParent_overwrites _ _).2 ?_
    intro q hq
    cases Option.some.injEq _ _ ▸ hq
    exact h2

/-- C6: on a well-formed square matrix, ludecomp raises the
Singular-matrix error exactly when some row is entirely zero, and it
raises before any element has been written, leaving the contents
unchanged; when no row is entirely zero it never raises (exact-zero
pivots are replaced by TINY instead). -/
theorem C6_ludecomp_error_iff (m : MatrixQ) (hwf : m.WF) (hsq : m.nrows = m.ncols) :
    ((∃ row ∈ m.mV, ∀ x ∈ row, x = 0) →
      MatrixQ.ludecomp m = (.error .singular, m)) ∧
    ((∀ row ∈ m.mV, ∃ x ∈ row, x ≠ 0) →
      ∃ res, (MatrixQ.ludecomp m).1 = .ok res) := by
  have hlen : ∀ row ∈ m.mV, row.length = m.nrows := by
    intro row hrow
    rw [hwf.2 row hrow, hsq]
  constructor
  · rintro ⟨row, hmem, hall⟩
    obtain ⟨i, hi, hrow⟩ := List.mem_iff_getElem.mp hmem
    have hiN : i < m.nrows := by
      rw [← hwf.1]
      exact hi
    have hgetD : m.mV.getD i [] = row := by
      rw [List.getD_eq_getElem _ _ hi, hrow]
    have hzero : MatrixQ.rowMaxAbs (m.mV.getD i []) m.nrows = 0 := by
      rw [hgetD, MatrixQ.rowMaxAbs_eq_zero_iff]
      intro j hj
      have hjlen : j < row.length := by
        rw [hlen row hmem]
        exact hj
      rw [List.getD_eq_getElem _ _ hjlen]
      exact hall _ (List.getElem_mem hjlen)
    have hcvv : MatrixQ.computeVV m.mV m.nrows = .error .singular :=
      MatrixQ.vvLoop_error_of_zero_row _ _ _ ⟨i, List.mem_range.mpr hiN, hzero⟩
    rw [MatrixQ.ludecomp]
    rw [hcvv]
  · intro hall
    have hne : ∀ i ∈ List.range m.nrows,
        MatrixQ.rowMaxAbs (m.mV.getD i []) m.nrows ≠ 0 := by
      intro i hi hzero
      have hiN : i < m.mV.length := by
        rw [hwf.1]
        exact List.mem_range.mp hi
      have hmem : m.mV.getD i [] ∈ m.mV := by
        rw [List.getD_eq_getElem _ _ hiN]
        exact List.getElem_mem hiN
      obtain ⟨x, hx, hxne⟩ := hall _ hmem
      obtain ⟨j, hj, hjx⟩ := List.mem_iff_getElem.mp hx
      have hjN : j < m.nrows := by
        rw [← hlen _ hmem]
        exact hj
      have := (MatrixQ.rowMaxAbs_eq_zero_iff _ _).mp hzero j hjN
      rw [List.getD_eq_getElem _ _ hj, hjx] at this
      exact hxne this
    obtain ⟨vv, hvv⟩ := MatrixQ.vvLoop_ok_of_no_zero_row m.mV m.nrows _ hne
    have hcvv : MatrixQ.computeVV m.mV m.nrows = .ok vv := hvv
    rw [MatrixQ.ludecomp]
    rw [hcvv]
    exact ⟨_, rfl⟩

/-- Witness for C6: the matrix [[0,0],[1,3]] (zero first row) raises with
contents unchanged; [[0,1],[0,2]] (no zero row, but a zero pivot handled
by TINY) decomposes without raising. -/
theorem C6_ludecomp_error_iff_witness :
    ((⟨2, 2, [[0, 0], [1, 3]]⟩ : MatrixQ).WF ∧
      MatrixQ.ludecomp ⟨2, 2, [[0, 0], [1, 3]]⟩ =
        (.error .singular, ⟨2, 2, [[0, 0], [1, 3]]⟩)) ∧
    ((⟨2, 2, [[0, 1], [0, 2]]⟩ : MatrixQ).WF ∧
      ∃ res, (MatrixQ.ludecomp ⟨2, 2, [[0, 1], [0, 2]]⟩).1 = .ok res) := by
  refine ⟨⟨by decide, ?_⟩, ⟨by decide, ?_⟩⟩
  · exact (C6_ludecomp_error_iff ⟨2, 2, [[0, 0], [1, 3]]⟩ (by decide) rfl).1
      ⟨[0, 0], by decide⟩
  · exact (C6_ludecomp_error_iff ⟨2, 2, [[0, 1], [0, 2]]⟩ (by decide) rfl).2
      (by decide)

/-- C4 counterexample: the claim includes row assignment among the
invariant-preserving operations, but Matrix.__setitem__ stores the
assigned row unchecked: assigning the 3-element row [1,2,3] to a 2-by-2
matrix breaks the every-row-has-ncols-elements invariant. -/
theorem C4_counterexample :
    (⟨2, 2, [[1, 2], [3, 4]]⟩ : MatrixQ).WF ∧
    ¬ (MatrixQ.setRow ⟨2, 2, [[1, 2], [3, 4]]⟩ 0 [1, 2, 3]).WF := by
  decide

/-- C4 as amended: construction and every listed operation preserve the
shape invariant (stored row count = nrows, every stored row has ncols
elements) — except that row assignment preserves it only when the
assigned row has exactly ncols elements, since it is stored unchecked. -/
theorem C4_shape_invariant :
    (∀ args kr kc m, MatrixQ.matrixInit args kr kc = .ok m → m.WF) ∧
    (∀ (m : MatrixQ) i j x, m.WF → (MatrixQ.setElem m i j x).WF) ∧
    (∀ (m : MatrixQ) i r, m.WF → r.length = m.ncols → (MatrixQ.setRow m i r).WF) ∧
    (∀ (m : MatrixQ) s, m.WF → (MatrixQ.scale m s).WF) ∧
    (∀ (m : MatrixQ) p, m.WF → (MatrixQ.roundM m p).WF) ∧
    (∀ m1 m2 m3, MatrixQ.addM m1 m2 = .ok m3 → m3.WF) ∧
    (∀ m1 m2 m3, MatrixQ.multm m1 m2 = .ok m3 → m3.WF) ∧
    (∀ m : MatrixQ, (MatrixQ.transpose m).WF) ∧
    (∀ m : MatrixQ, m.WF → (MatrixQ.ludecomp m).2.WF) :=
  ⟨MatrixQ.WF_matrixInit,
   fun m i j x h => MatrixQ.WF_setElem m i j x h,
   fun m i r h hr => MatrixQ.WF_setRow m i r h hr,
   fun m s h => MatrixQ.WF_scale m s h,
   fun m p h => MatrixQ.WF_roundM m p h,
   fun m1 m2 m3 h => MatrixQ.WF_addM m1 m2 m3 h,
   fun m1 m2 m3 h => MatrixQ.WF_multm m1 m2 m3 h,
   MatrixQ.WF_transpose,
   fun m h => MatrixQ.WF_ludecomp m h⟩

/-- Witness for C4 at concrete inputs: the ragged constructor call
Matrix([1],[2,6],[3]), an in-range row assignment of correct width, and a
LU decomposition, each yielding a well-formed matrix. -/
theorem C4_shape_invariant_witness :
    (MatrixQ.matrixInit [[1], [2, 6], [3]] none none =
        .ok ⟨3, 2, [[1, 0], [2, 6], [3, 0]]⟩ ∧
      (⟨3, 2, [[1, 0], [2, 6], [3, 0]]⟩ : MatrixQ).WF) ∧
    ((⟨2, 2, [[1, 2], [3, 4]]⟩ : MatrixQ).WF ∧ (([9, 9] : List ℚ)).length = 2 ∧
      (MatrixQ.setRow ⟨2, 2, [[1, 2], [3, 4]]⟩ 1 [9, 9]).WF) ∧
    ((⟨2, 2, [[2, 1], [1, 3]]⟩ : MatrixQ).WF ∧
      (MatrixQ.ludecomp ⟨2, 2, [[2, 1], [1, 3]]⟩).2.WF) := by
  have hinit : MatrixQ.matrixInit [[1], [2, 6], [3]] none none =
      .ok ⟨3, 2, [[1, 0], [2, 6], [3, 0]]⟩ := by decide
  refine ⟨⟨hinit, C4_shape_invariant.1 _ _ _ _ hinit⟩,
    ⟨by decide, rfl, C4_shape_invariant.2.2.1 _ 1 _ (by decide) rfl⟩,
    ⟨by decide, C4_shape_invariant.2.2.2.2.2.2.2.2 _ (by decide)⟩⟩

/-- C9 counterexample: against the list [[9,2]], which has fewer rows
than the 2-by-2 matrix, the comparison returns False at the (0,0)
mismatch instead of raising the index error the claim promises for every
under-sized list. -/
theorem C9_counterexample :
    MatrixQ.eqList ⟨2, 2, [[1, 2], [3, 4]]⟩ [[9, 2]] = .ok false ∧
    (Except.ok false : Except MathError Bool) ≠ .error .indexError := by
  decide

namespace MatrixQ

/-- The row loop raises the IndexError at row K, the first row the list
fails to cover, provided the rows before K are covered and agree and row
K agrees on the part of the list row that exists — exactly the entries
the loop compares before the failing access. -/
theorem eqRows_err_at (l : List (List ℚ)) (rows : List (List ℚ)) (i K : ℕ)
    (hK : K < rows.length)
    (hgood : ∀ k < K, ∃ lr, l.get? (i + k) = some lr ∧
      (rows.getD k []).length ≤ lr.length ∧
      ∀ j < (rows.getD k []).length, (rows.getD k []).getD j 0 = lr.getD j 0)
    (hbad : (l.getD (i + K) []).length < (rows.getD K []).length)
    (hagK : ∀ j < (l.getD (i + K) []).length,
      (rows.getD K []).getD j 0 = (l.getD (i + K) []).getD j 0) :
    eqRows l i rows = .error .indexError := by
  induction rows generalizing i K with
  | nil => exact absurd hK (Nat.not_lt_zero K)
  | cons r rest ih =>
    cases K with
    | zero =>
      rw [Nat.add_zero] at hbad hagK
      have hr0 : (r :: rest).getD 0 [] = r := rfl
      rw [hr0] at hbad hagK
      have herr : eqRow l i r 0 = .error .indexError := by
        cases hli : l.get? i with
        | none =>
          have hrne : r ≠ [] := by
            intro hnil
            rw [hnil] at hbad
            simp at hbad
          cases r with
          | nil => exact absurd rfl hrne
          | cons x xs => simp only [eqRow, hli]
        | some lr =>
          have hkl : i < l.length := (List.get?_eq_some.mp hli).1
          have hld : l.getD i [] = lr := by
            rw [get?_eq_some_getD l i [] hkl] at hli
            exact Option.some.injEq _ _ ▸ hli
          rw [hld] at hbad hagK
          refine eqRow_err l i lr hli r 0 (by simpa) (Nat.zero_le _) ?_
          intro k hk hk2
          simpa using hagK k (by simpa using hk2)
      rw [eqRows, herr]
    | succ K' =>
      obtain ⟨lr, hlr, hlen, hag⟩ := hgood 0 (Nat.succ_pos K')
      rw [Nat.add_zero] at hlr
      have hr0 : (r :: rest).getD 0 [] = r := rfl
      rw [hr0] at hlen hag
      have hok : eqRow l i r 0 = .ok true := by
        refine eqRow_ok l i lr hlr r 0 (by simpa) ?_
        intro k hk
        simpa using hag k hk
      rw [eqRows, hok]
      refine ih (i + 1) K' (Nat.lt_of_succ_lt_succ hK) ?_ ?_ ?_
      · intro k hk
        obtain ⟨lr', h1, h2, h3⟩ := hgood (k + 1) (by omega)
        rw [show i + (k + 1) = i + 1 + k by omega] at h1
        exact ⟨lr', h1, h2, h3⟩
      · rw [show i + 1 + K' = i + (K' + 1) by omega]
        exact hbad
      · rw [show i + 1 + K' = i + (K' + 1) by omega]
        exact hagK

end MatrixQ

/-- C9 as amended: with a plain list as right operand the size check is
skipped and only the matrix's nrows-by-ncols entries are compared, so a
covering list that agrees on those entries compares equal however far
its rows extend; and when some row K of the matrix is the first the
list fails to cover (its list row, if any, being shorter than ncols),
the comparison raises the index error provided every entry compared
before the failing access matches — the rows before K in full, and row
K on the part of its list row that exists; a mismatch found earlier
returns False instead. -/
theorem C9_eqList_semantics (m : MatrixQ) (l : List (List ℚ)) (hwf : m.WF) :
    (MatrixQ.Covers m l → MatrixQ.Agrees m l → MatrixQ.eqList m l = .ok true) ∧
    (∀ K < m.nrows,
      (∀ i < K, i < l.length ∧ m.ncols ≤ (l.getD i []).length) →
      (l.getD K []).length < m.ncols →
      (∀ i < K, ∀ j < m.ncols, (m.mV.getD i []).getD j 0 = (l.getD i []).getD j 0) →
      (∀ j < (l.getD K []).length, (m.mV.getD K []).getD j 0 = (l.getD K []).getD j 0) →
      MatrixQ.eqList m l = .error .indexError) := by
  have hrowlen : ∀ k, k < m.nrows → (m.mV.getD k []).length = m.ncols := by
    intro k hk
    have hkM : k < m.mV.length := by
      rw [hwf.1]
      exact hk
    refine hwf.2 _ ?_
    rw [List.getD_eq_getElem _ _ hkM]
    exact List.getElem_mem hkM
  constructor
  · intro hcov hag
    rw [MatrixQ.eqList]
    refine MatrixQ.eqRows_ok l m.mV 0 ?_
    intro k r hk
    have hkN : k < m.mV.length := (List.get?_eq_some.mp hk).1
    have hkrows : k < m.nrows := by
      rw [← hwf.1]
      exact hkN
    have hrlen : r.length = m.ncols :=
      hwf.2 r (List.get?_mem hk)
    obtain ⟨hkl, hlen⟩ := hcov k hkrows
    refine ⟨l.getD k [], ?_, ?_, ?_⟩
    · rw [Nat.zero_add]
      exact MatrixQ.get?_eq_some_getD l k [] hkl
    · rw [hrlen]
      exact hlen
    · intro j hj
      have hgd : m.mV.getD k [] = r := by
        rw [MatrixQ.get?_eq_some_getD m.mV k [] hkN] at hk
        exact Option.some.injEq _ _ ▸ hk
      have := hag k hkrows j (by rw [← hrlen]; exact hj)
        (by rw [← hrlen] at hlen; omega)
      rw [hgd] at this
      exact this
  · intro K hK hgood hbad hagPre hagK
    rw [MatrixQ.eqList]
    have hKM : K < m.mV.length := by
      rw [hwf.1]
      exact hK
    refine MatrixQ.eqRows_err_at l m.mV 0 K hKM ?_ ?_ ?_
    · intro k hk
      obtain ⟨hkl, hlen⟩ := hgood k hk
      refine ⟨l.getD k [], ?_, ?_, ?_⟩
      · rw [Nat.zero_add]
        exact MatrixQ.get?_eq_some_getD l k [] hkl
      · rw [hrowlen k (by omega)]
        exact hlen
      · intro j hj
        rw [hrowlen k (by omega)] at hj
        exact hagPre k hk j hj
    · rw [Nat.zero_add, hrowlen K hK]
      exact hbad
    · intro j hj
      rw [Nat.zero_add] at hj ⊢
      exact hagK j hj

/-- Witness for C9: the 2-by-2 matrix [[1,2],[3,4]] compares equal to the
larger agreeing list [[1,2,9],[3,4],[5]]; and against the list [[1],[9,4]],
whose first row is too short, it raises the index error — the only entry
compared before the failing access, (0,0), matches, even though the
never-compared entry (1,0) disagrees. -/
theorem C9_eqList_semantics_witness :
    ((⟨2, 2, [[1, 2], [3, 4]]⟩ : MatrixQ).WF ∧
      MatrixQ.Covers ⟨2, 2, [[1, 2], [3, 4]]⟩ [[1, 2, 9], [3, 4], [5]] ∧
      MatrixQ.Agrees ⟨2, 2, [[1, 2], [3, 4]]⟩ [[1, 2, 9], [3, 4], [5]] ∧
      MatrixQ.eqList ⟨2, 2, [[1, 2], [3, 4]]⟩ [[1, 2, 9], [3, 4], [5]] = .ok true) ∧
    ((0 : ℕ) < 2 ∧
      (([[1], [9, 4]] : List (List ℚ)).getD 0 []).length < 2 ∧
      (∀ j < (([[1], [9, 4]] : List (List ℚ)).getD 0 []).length,
        (([[1, 2], [3, 4]] : List (List ℚ)).getD 0 []).getD j 0 =
          (([[1], [9, 4]] : List (List ℚ)).getD 0 []).getD j 0) ∧
      MatrixQ.eqList ⟨2, 2, [[1, 2], [3, 4]]⟩ [[1], [9, 4]] = .error .indexError) := by
  refine ⟨⟨by decide, by decide, by decide, ?_⟩, ⟨by decide, by decide, by decide, ?_⟩⟩
  · exact (C9_eqList_semantics ⟨2, 2, [[1, 2], [3, 4]]⟩ [[1, 2, 9], [3, 4], [5]]
      (by decide)).1 (by decide) (by decide)
  · exact (C9_eqList_semantics ⟨2, 2, [[1, 2], [3, 4]]⟩ [[1], [9, 4]]
      (by decide)).2 0 (by decide) (by decide) (by decide) (by decide) (by decide)
